import Mathlib

/-!
Verification of the data-agent workflow orchestrator.

Shallow embedding of the core control flow of
`data_engineering_agent/dataform_pipeline_agent`:

* `agent/agent_executor.py` — the router `define_next_action`, the state
  merger `update_agent_state`, and the fault handling of `interactive_mode`;
* `tools/dataform.py` — `DataformTools.upload_and_compile_files` (the
  compilation repair loop) and `DataformTools.fix_compilation_errors`
  together with `fix_json_parse_errors` (the response repair loop).

External capabilities (the Vertex AI generative model, the Dataform
write-file and compile RPCs, `json.loads`, console input) are passed as
function parameters; the embedded definitions reproduce the control flow
of the Python source around them.  Loops the source writes with
`while True` are embedded with an explicit fuel argument, so that
non-termination of the source loop shows up as "no fuel suffices".
-/

namespace DataAgent

/-- Role tag of a conversation message (`HumanMessage`, `AIMessage`,
`SystemMessage` from langchain, plus a catch-all for other types). -/
inductive Role where
  | human
  | ai
  | system
  | other
deriving DecidableEq, Repr

/-- A role-tagged conversation message; `content` is the message text that
`update_agent_state` compares with string equality. -/
structure Message where
  role : Role
  content : String
deriving DecidableEq, Repr

/-- A table descriptor (name plus schema fragments), kept abstract as a
string since none of the core control flow inspects its structure. -/
abbrev TableDesc := String

/-- The conversation state threaded through the workflow.  The class
`AgentState` lives in `agent/agent_state.py`, which is not part of the
sources at hand; the field set is taken from the fields the executor
reads and writes (`input`, `messages`, `next`, `source_tables`,
`target_tables`, `intermediate_tables`, `pipeline_code`, `files`) and
from the spec's data-model section.  Optional fields model Python
attributes that may hold `None`. -/
structure AgentState where
  input : String
  messages : List Message
  next : Option String
  source_tables : Option (List TableDesc)
  target_tables : Option (List TableDesc)
  intermediate_tables : Option (List TableDesc)
  pipeline_code : Option String
deriving DecidableEq, Repr

/-- The langgraph terminal sentinel `END` (the string `"__end__"`). -/
def END_SENTINEL : String := "__end__"

/-- Embedding of `define_next_action` (`agent_executor.py:38-71`): the
router is the if/elif chain on `state.next`; every unrecognized value,
including an unset `next` (Python `None`), falls through to the final
`else` arm returning `END`.  The `print` calls are diagnostics only and
are not modelled.  The embedding is a total Lean function, matching the
fact that the Python function has no failing path. -/
def define_next_action (state : AgentState) : String :=
  if state.next = some "generate_code" then "generate_code"
  else if state.next = some "ask_clarifications" then "ask_clarifications"
  else if state.next = some "identify_dataform_files" then "identify_dataform_files"
  else if state.next = some "upload_files" then "upload_files"
  else if state.next = some "fix_errors" then "fix_errors"
  else if state.next = some "handle_errors" then "handle_errors"
  else if state.next = some "validate_data" then "validate_data"
  else if state.next = some "elicit_schema" then "elicit_schema"
  else END_SENTINEL

/-- The eight task names of the router's dispatch table. -/
def routerTaskNames : List String :=
  ["generate_code", "ask_clarifications", "identify_dataform_files",
   "upload_files", "fix_errors", "handle_errors", "validate_data",
   "elicit_schema"]

/-- A partial update produced by a task step, as consumed by
`update_agent_state`.  Python distinguishes a key being absent from the
update dict from the key being present with value `None`; the outer
`Option` records presence of the key, the inner `Option` (where there is
one) records a possibly-`None` value.  `messages`, when present, is a
list (the source iterates over it). -/
structure StateUpdate where
  messages : Option (List Message)
  source_tables : Option (Option (List TableDesc))
  target_tables : Option (Option (List TableDesc))
  intermediate_tables : Option (Option (List TableDesc))
  next : Option (Option String)
  pipeline_code : Option (Option String)
deriving DecidableEq, Repr

/-- Embedding of the `messages` branch of `update_agent_state`
(`agent_executor.py:119-124`):
`new_state.messages.extend(m for m in value if not any(sm.content == m.content
for sm in new_state.messages))`.  Because `extend` consumes the generator
lazily while appending, each candidate message is compared against the
list as grown so far, so duplicates occurring inside the update itself
are also filtered. -/
def appendNoDup : List Message → List Message → List Message
  | ex, [] => ex
  | ex, m :: ms =>
    if ex.any (fun sm => sm.content == m.content) then
      appendNoDup ex ms
    else
      appendNoDup (ex ++ [m]) ms

/-- Embedding of `update_agent_state` (`agent_executor.py:107-138`).  The
source deep-copies the state and then handles each key of the update
dict: `messages` is merged with content de-duplication; `source_tables`
and `target_tables` are overwritten only when the supplied value is not
`None`; `next` is always overwritten when present; every other
recognized attribute (here `intermediate_tables`, `pipeline_code`) goes
through the generic `setattr` branch and is overwritten with whatever
value is present, `None` included.  Each dict key occurs at most once,
so the per-key effects are independent. -/
def update_agent_state (state : AgentState) (output : StateUpdate) : AgentState :=
  let s1 :=
    match output.messages with
    | none => state
    | some ms => { state with messages := appendNoDup state.messages ms }
  let s2 :=
    match output.source_tables with
    | none => s1
    | some none => s1
    | some (some v) => { s1 with source_tables := some v }
  let s3 :=
    match output.target_tables with
    | none => s2
    | some none => s2
    | some (some v) => { s2 with target_tables := some v }
  let s4 :=
    match output.next with
    | none => s3
    | some v => { s3 with next := v }
  let s5 :=
    match output.intermediate_tables with
    | none => s4
    | some v => { s4 with intermediate_tables := v }
  match output.pipeline_code with
  | none => s5
  | some v => { s5 with pipeline_code := v }

/-- A file entry `{path, content}` as handled by `DataformTools`. -/
structure FileEntry where
  path : String
  content : String
deriving DecidableEq, Repr

/-- A structured compilation error `{message, path, stack}` from the
Dataform compile response. -/
structure CompErr where
  message : String
  path : String
  stack : String
deriving DecidableEq, Repr

/-- The compile RPC response observed by `upload_and_compile_files`:
`name`, `workspace`, and the `compilation_errors` sequence (the proto
attribute always exists, so the source's `hasattr` guard is always true
and truthiness of the list — non-emptiness — decides the branch). -/
structure CompilationResults where
  name : String
  workspace : String
  compilation_errors : List CompErr
deriving DecidableEq, Repr

/-- The normalized success summary dict built at
`dataform.py:171-185`. -/
structure CompilationSummary where
  name : String
  workspace : String
  compilation_errors : List CompErr
deriving DecidableEq, Repr

/-- Embedding of the initial upload loop of `upload_and_compile_files`
(`dataform.py:112-125`): each file's write is attempted inside its own
`try`/`except`, so a failed write (result `false`) is logged and the
loop moves on to the next file.  The returned list records, in order,
every write attempted and its outcome. -/
def uploadPhase (write : String → String → Bool) : List FileEntry → List (String × Bool)
  | [] => []
  | f :: fs => (f.path, write f.path f.content) :: uploadPhase write fs

/-- Observable outcome of the compile loop of `upload_and_compile_files`:
how many compile RPCs were issued, the `files` argument passed to each
`fix_compilation_errors` invocation, and the returned value (`some`
summary on success, `none` for the Python `return None`). -/
structure CompileOutcome where
  attempts : Nat
  fixerCalls : List (List FileEntry)
  result : Option CompilationSummary
deriving DecidableEq, Repr

/-- Embedding of the `for _ in range(3)` compile loop of
`upload_and_compile_files` (`dataform.py:129-190`).  `fuel` is the
remaining range iterations (3 at entry), `k` the attempt index.  Per
iteration: issue a compile (`compile k`); if `compilation_errors` is
empty, return the normalized summary; otherwise call
`fix_compilation_errors` with the ORIGINAL `files` argument (the source
never rebinds `files`).  `fixer k = some []` models a falsy
`fixed_files` (`break`, then `return None`); `fixer k = some (f :: fs)`
models replacement files, which are only re-uploaded to the workspace;
`fixer k = none` models an exception raised while fixing or re-uploading,
which the `except` at `dataform.py:166-167` catches before the loop
continues. -/
def compileLoop (compile : Nat → CompilationResults)
    (fixer : Nat → Option (List FileEntry)) (files : List FileEntry) :
    Nat → Nat → CompileOutcome
  | 0, _ => { attempts := 0, fixerCalls := [], result := none }
  | fuel + 1, k =>
    let cr := compile k
    if cr.compilation_errors.isEmpty then
      { attempts := 1
        fixerCalls := []
        result := some
          { name := cr.name
            workspace := cr.workspace
            compilation_errors := cr.compilation_errors.map
              (fun e => { message := e.message, path := e.path, stack := e.stack }) } }
    else
      match fixer k with
      | some [] => { attempts := 1, fixerCalls := [files], result := none }
      | some (_ :: _) =>
        let rest := compileLoop compile fixer files fuel (k + 1)
        { attempts := rest.attempts + 1
          fixerCalls := files :: rest.fixerCalls
          result := rest.result }
      | none =>
        let rest := compileLoop compile fixer files fuel (k + 1)
        { attempts := rest.attempts + 1
          fixerCalls := files :: rest.fixerCalls
          result := rest.result }

/-- Embedding of `DataformTools.upload_and_compile_files`
(`dataform.py:100-190`): write all files best-effort, then run the
bounded compile loop with exactly 3 range iterations.  The
`workspace_name` only feeds path construction for the RPCs, which the
capabilities abstract. -/
def upload_and_compile_files (write : String → String → Bool)
    (compile : Nat → CompilationResults) (fixer : Nat → Option (List FileEntry))
    (files : List FileEntry) (_workspace_name : String) :
    List (String × Bool) × CompileOutcome :=
  (uploadPhase write files, compileLoop compile fixer files 3 0)

/-- Python's `str.strip()` on the front of a character list: drop
leading whitespace. -/
def dropLeadingWs : List Char → List Char
  | [] => []
  | c :: t => if c.isWhitespace then dropLeadingWs t else c :: t

/-- Python's `str.strip()`: drop leading and trailing whitespace. -/
def trimChars (l : List Char) : List Char :=
  ((dropLeadingWs (dropLeadingWs l).reverse)).reverse

/-- Python's `str.replace(old, new)` for a non-empty pattern `p :: ps`:
replace non-overlapping occurrences left to right.  The `fuel` argument
is only a structural-recursion bound; `fuel = l.length` always
suffices because each step consumes at least one character. -/
def replaceCharsFuel (p : Char) (ps repl : List Char) : Nat → List Char → List Char
  | 0, l => l
  | _ + 1, [] => []
  | n + 1, c :: t =>
    if (p :: ps).isPrefixOf (c :: t) then
      repl ++ replaceCharsFuel p ps repl n (t.drop ps.length)
    else
      c :: replaceCharsFuel p ps repl n t

/-- Python's `str.replace(old, new)` on character lists (non-empty
pattern `p :: ps`). -/
def replaceChars (p : Char) (ps repl l : List Char) : List Char :=
  replaceCharsFuel p ps repl l.length l

/-- The response post-processing applied at `dataform.py:209` and
`dataform.py:232`:
`response.text.strip().replace("`json\n", "").replace("`", "")` —
strip whitespace, delete every occurrence of the code-fence opener
followed by a json tag, then delete every remaining backtick. -/
def stripFence (s : String) : String :=
  String.mk (replaceChars (Char.ofNat 96) [] []
    (replaceChars (Char.ofNat 96) ['j', 's', 'o', 'n', '\n'] [] (trimChars s.data)))

/-- The shape `json.loads` yields for a fix response: a JSON object whose
`files` key (if any) holds the replacement file list;
`fixed_files_json.get("files", [])` defaults to the empty list. -/
structure FixedJson where
  files : Option (List FileEntry)
deriving DecidableEq, Repr

/-- Embedding of the `while True` response-repair loop of
`fix_compilation_errors` (`dataform.py:235-244`).  `generate n` is the
raw text of the model's n-th call within this invocation (call 0 is the
initial fix request at `dataform.py:230`; call n+1 is the
`fix_json_parse_errors` model call made after the n-th parse failure,
whose response is stripped the same way at `dataform.py:209`).  `parse`
is the `json.loads` capability.  `fuel` bounds the unrolling of the
unbounded source loop: a `none` result means the loop is still running
after `fuel` iterations.  On success the loop returns the parsed `files`
value together with the total number of model calls made. -/
def fixLoop (generate : Nat → String) (parse : String → Option FixedJson) :
    Nat → Nat → Option (List FileEntry × Nat)
  | 0, _ => none
  | fuel + 1, k =>
    match parse (stripFence (generate k)) with
    | some fj => some (fj.files.getD [], k + 1)
    | none => fixLoop generate parse fuel (k + 1)

/-- Embedding of `DataformTools.fix_compilation_errors`
(`dataform.py:213-244`) at the granularity the response-repair claims
need: the initial model call produces `generate 0`, and the parse/repair
loop runs from there. -/
def fix_compilation_errors (generate : Nat → String)
    (parse : String → Option FixedJson) (fuel : Nat) :
    Option (List FileEntry × Nat) :=
  fixLoop generate parse fuel 0

/-- A fault raised while streaming one turn in `interactive_mode`:
Python distinguishes `KeyError` from every other exception class; `text`
is what `str(e)` yields. -/
inductive Fault where
  | keyError (text : String)
  | otherFault (text : String)
deriving DecidableEq, Repr

/-- The internal langgraph edge name matched at `agent_executor.py:224`. -/
def KNOWN_EDGE_FAULT : String := "branch:upload_files:wrapper:end"

/-- Substring test on character lists (Python's `needle in haystack`). -/
def listContainsSub (needle : List Char) : List Char → Bool
  | [] => List.isPrefixOf needle []
  | c :: t => List.isPrefixOf needle (c :: t) || listContainsSub needle t

/-- Python's `needle in haystack` substring containment on strings. -/
def strContainsSub (hay needle : String) : Bool :=
  listContainsSub needle.toList hay.toList

/-- The state built at the top of each session iteration
(`agent_executor.py:152-154`): `AgentState(input="", messages=[],
target_tables=[])`.  The remaining fields keep their class defaults;
`agent/agent_state.py` is not among the sources, and per the spec's
lifecycle section a fresh state has empty messages and empty target
tables, all other optional fields unset. -/
def freshAgentState : AgentState :=
  { input := ""
    messages := []
    next := none
    source_tables := none
    target_tables := some []
    intermediate_tables := none
    pipeline_code := none }

/-- What the driver does with a fault raised during a turn. -/
inductive DriverReaction where
  | restartTurn (fresh : AgentState)
  | propagate (f : Fault)
deriving DecidableEq, Repr

/-- Embedding of the `except KeyError` clause of `interactive_mode`
(`agent_executor.py:223-230`): only a `KeyError` reaches the handler at
all; inside it, the known edge name is looked for inside `str(e)`, and a
match breaks the inner loop so the outer loop rebuilds a fresh state,
while any other `KeyError` is re-raised.  Non-`KeyError` faults never
enter the handler. -/
def handleTurnFault : Fault → DriverReaction
  | Fault.keyError t =>
    if strContainsSub t KNOWN_EDGE_FAULT then DriverReaction.restartTurn freshAgentState
    else DriverReaction.propagate (Fault.keyError t)
  | Fault.otherFault t => DriverReaction.propagate (Fault.otherFault t)

/-- One chunk yielded by `graph.stream`: either the `"__end__"` entry
carrying the final state, or a node's `{key: value}` update whose value
may carry a `messages` list. -/
inductive StreamChunk where
  | endUpdate (finalState : AgentState)
  | nodeUpdate (key : String) (messages : Option (List Message))
deriving DecidableEq, Repr

/-- The role-prefixed console line printed for a streamed message
(`agent_executor.py:205-212`). -/
def roleLine (m : Message) : String :=
  match m.role with
  | Role.human => "Human: " ++ m.content
  | Role.ai => "AI: " ++ m.content
  | Role.system => "System: " ++ m.content
  | Role.other => "Unknown message type: " ++ m.content

/-- Embedding of the body of the `for output in graph.stream(...)` loop
(`agent_executor.py:171-221`).  Per chunk: an `"__end__"` chunk replaces
the loop's state; a node chunk prints every message of its `messages`
list whose content does not occur in the (unchanged) state's messages —
the `update_agent_state` call in the loop is commented out, so the state
only changes on `"__end__"` chunks.  After each chunk,
`next == "ask_for_further_input"` is rewritten to `END`,
`next == END` prints the completion line and breaks, and otherwise the
`Continue? (yes/no)` console read happens and its value is bound to
`user_request_dummy`, which nothing reads.  `contIn i` is the i-th such
console read. -/
def streamGo (contIn : Nat → String) :
    AgentState → List StreamChunk → Nat → List String → List String × AgentState
  | state, [], _, printed => (printed, state)
  | state, c :: cs, i, printed =>
    let state' :=
      match c with
      | StreamChunk.endUpdate s => s
      | StreamChunk.nodeUpdate _ _ => state
    let printed' := printed ++
      (match c with
       | StreamChunk.endUpdate _ => []
       | StreamChunk.nodeUpdate key msgs =>
         if key = END_SENTINEL then []
         else
           match msgs with
           | none => []
           | some ml =>
             (ml.filter
               (fun m => !(state.messages.any (fun sm => sm.content == m.content)))).map
               roleLine)
    if state'.next = some "ask_for_further_input" then
      let state2 := { state' with next := some END_SENTINEL }
      let _user_request_dummy := contIn i
      streamGo contIn state2 cs (i + 1) printed'
    else if state'.next = some END_SENTINEL then
      (printed' ++ ["Pipeline execution completed. Starting over..."], state')
    else
      let _user_request_dummy := contIn i
      streamGo contIn state' cs (i + 1) printed'

/-- Result of starting one turn of the inner loop of `interactive_mode`. -/
inductive TurnStart where
  | exitRequested
  | started (printed : List String) (final : AgentState)
deriving DecidableEq, Repr

/-- The case-insensitive exit test at `agent_executor.py:163`:
`user_request.lower() in ["exit", "quit"]`. -/
def isExitToken (s : String) : Bool :=
  s.toLower = "exit" || s.toLower = "quit"

/-- Embedding of one iteration of the inner loop of `interactive_mode`
(`agent_executor.py:156-221`): when the state has no messages, read the
user request (returning `exitRequested` for exit/quit, otherwise seeding
`input` and appending a `HumanMessage`), then stream the turn.
`userRequest` is the `Your request:` console read; `contIn` the
sequence of `Continue? (yes/no)` reads. -/
def interactiveTurn (state : AgentState) (userRequest : String)
    (chunks : List StreamChunk) (contIn : Nat → String) : TurnStart :=
  if state.messages.isEmpty then
    if isExitToken userRequest then TurnStart.exitRequested
    else
      let seeded :=
        { state with
            input := userRequest
            messages := state.messages ++ [{ role := Role.human, content := userRequest }] }
      let res := streamGo contIn seeded chunks 0 []
      TurnStart.started res.1 res.2
  else
    let res := streamGo contIn state chunks 0 []
    TurnStart.started res.1 res.2

/-- A minimal object heap for mutation reasoning: cells hold
`AgentState` values, references are indices. -/
abbrev Heap := List AgentState

/-- Heap read (Python attribute access through an object reference). -/
def readRef (h : Heap) (r : Nat) : Option AgentState := h[r]?

/-- Heap write (mutation of the object a reference points to). -/
def writeRef (h : Heap) (r : Nat) (v : AgentState) : Heap := h.set r v

/-- Allocation of a fresh cell, as performed by `deepcopy`: the new cell
is independent of every existing one (deepcopy copies recursively, so no
nested structure is shared with the original). -/
def allocRef (h : Heap) (v : AgentState) : Heap × Nat := (h ++ [v], h.length)

/-- Heap-level embedding of `update_agent_state`
(`agent_executor.py:107-138`): dereference the input state, `deepcopy`
it into a fresh independent cell, apply every per-key mutation to that
fresh cell only (the source's loop mutates `new_state` exclusively), and
return the reference to the copy.  `none` models a dangling input
reference, which cannot arise in the driver. -/
def update_agent_state_heap (h : Heap) (r : Nat) (u : StateUpdate) :
    Option (Heap × Nat) :=
  match readRef h r with
  | none => none
  | some s =>
    let alloc := allocRef h s
    some (writeRef alloc.1 alloc.2 (update_agent_state s u), alloc.2)

/-- The update with no keys present (`output = {}`). -/
def emptyStateUpdate : StateUpdate :=
  { messages := none
    source_tables := none
    target_tables := none
    intermediate_tables := none
    next := none
    pipeline_code := none }

/-- Characterization of the de-duplicating message merge: the existing
messages stay as a prefix, the appended suffix is a sublist of the
update's messages, no appended message repeats an existing content,
content-nodup is preserved (duplicates inside the update are filtered
against the list as grown so far), and every update message's content
does occur in the merged result — a message whose content is new is
actually appended, not dropped. -/
theorem appendNoDup_characterization (ms : List Message) : ∀ ex : List Message,
    ∃ kept, appendNoDup ex ms = ex ++ kept ∧ kept.Sublist ms ∧
      (∀ m ∈ kept, ∀ sm ∈ ex, sm.content ≠ m.content) ∧
      ((ex.map Message.content).Nodup → ((ex ++ kept).map Message.content).Nodup) ∧
      (∀ m ∈ ms, m.content ∈ (ex ++ kept).map Message.content) := by
  induction ms with
  | nil =>
    intro ex
    exact ⟨[], by simp [appendNoDup], List.nil_sublist _, by simp, by simp, by simp⟩
  | cons m ms ih =>
    intro ex
    by_cases hc : ex.any (fun sm => sm.content == m.content) = true
    · obtain ⟨kept, h1, h2, h3, h4, h5⟩ := ih ex
      have hdup : m.content ∈ ex.map Message.content := by
        obtain ⟨sm, hsm, heq⟩ := List.any_eq_true.mp hc
        exact List.mem_map.mpr ⟨sm, hsm, by simpa using heq⟩
      refine ⟨kept, by simpa [appendNoDup, hc] using h1, h2.cons m, h3, h4, ?_⟩
      intro m' hm'
      rcases List.mem_cons.mp hm' with rfl | hmem
      · simp only [List.map_append, List.mem_append]
        exact Or.inl hdup
      · exact h5 m' hmem
    · obtain ⟨kept, h1, h2, h3, h4, h5⟩ := ih (ex ++ [m])
      have hnotin : ∀ sm ∈ ex, sm.content ≠ m.content := by
        intro sm hsm heq
        exact hc (List.any_eq_true.mpr ⟨sm, hsm, by simp [heq]⟩)
      have hmc : m.content ∉ ex.map Message.content := by
        intro hmem
        obtain ⟨sm, hsm, heq⟩ := List.mem_map.mp hmem
        exact hnotin sm hsm heq
      refine ⟨m :: kept, ?_, h2.cons₂ m, ?_, ?_, ?_⟩
      · have hstep : appendNoDup ex (m :: ms) = appendNoDup (ex ++ [m]) ms := by
          simp [appendNoDup, hc]
        rw [hstep, h1, List.append_assoc]
        rfl
      · intro m' hm' sm hsm
        rcases List.mem_cons.mp hm' with rfl | hmem
        · exact hnotin sm hsm
        · exact h3 m' hmem sm (List.mem_append.mpr (Or.inl hsm))
      · intro hnd
        have hnd' : ((ex ++ [m]).map Message.content).Nodup := by
          simp only [List.map_append, List.map_cons, List.map_nil]
          rw [List.nodup_append]
          exact ⟨hnd, List.nodup_singleton _, by simpa using hmc⟩
        have := h4 hnd'
        simpa [List.append_assoc] using this
      · intro m' hm'
        rcases List.mem_cons.mp hm' with rfl | hmem
        · exact List.mem_map_of_mem Message.content
            (List.mem_append.mpr (Or.inr (List.mem_cons_self _ _)))
        · have := h5 m' hmem
          simpa [List.append_assoc] using this

/-- The merge touches `messages` exactly as the `messages` branch says. -/
theorem update_agent_state_messages (s : AgentState) (u : StateUpdate) :
    (update_agent_state s u).messages =
      match u.messages with
      | none => s.messages
      | some ms => appendNoDup s.messages ms := by
  rcases u with ⟨_ | ms, _ | (_ | st), _ | (_ | tt), _ | it, _ | nx, _ | pc⟩ <;> rfl

/-- The merge replaces `source_tables` exactly when the update's value is
present and non-null. -/
theorem update_agent_state_source_tables (s : AgentState) (u : StateUpdate) :
    (update_agent_state s u).source_tables =
      match u.source_tables with
      | some (some v) => some v
      | _ => s.source_tables := by
  rcases u with ⟨_ | ms, _ | (_ | st), _ | (_ | tt), _ | it, _ | nx, _ | pc⟩ <;> rfl

/-- The merge replaces `target_tables` exactly when the update's value is
present and non-null. -/
theorem update_agent_state_target_tables (s : AgentState) (u : StateUpdate) :
    (update_agent_state s u).target_tables =
      match u.target_tables with
      | some (some v) => some v
      | _ => s.target_tables := by
  rcases u with ⟨_ | ms, _ | (_ | st), _ | (_ | tt), _ | it, _ | nx, _ | pc⟩ <;> rfl

/-- `intermediate_tables` goes through the generic `setattr` branch: it
is overwritten with whatever value is present, `None` included. -/
theorem update_agent_state_intermediate_tables (s : AgentState) (u : StateUpdate) :
    (update_agent_state s u).intermediate_tables =
      match u.intermediate_tables with
      | none => s.intermediate_tables
      | some v => v := by
  rcases u with ⟨_ | ms, _ | (_ | st), _ | (_ | tt), _ | it, _ | nx, _ | pc⟩ <;> rfl

/-- C2: the Router is a pure total function of `state.next` (it is a
total Lean function reading only `next`, so it never fails): each of the
8 names `generate_code`, `ask_clarifications`, `identify_dataform_files`,
`upload_files`, `fix_errors`, `handle_errors`, `validate_data`,
`elicit_schema` maps to itself, and every other value of `next` —
including an unset one, since no `some n` can match — maps to the
terminal sentinel `END`. -/
theorem router_fixed_dispatch_table (s : AgentState) :
    (∀ n ∈ routerTaskNames, s.next = some n → define_next_action s = n) ∧
    ((∀ n ∈ routerTaskNames, s.next ≠ some n) → define_next_action s = END_SENTINEL) := by
  constructor
  · intro n hn hs
    simp only [routerTaskNames, List.mem_cons, List.mem_singleton, List.not_mem_nil,
      or_false] at hn
    rcases hn with rfl | rfl | rfl | rfl | rfl | rfl | rfl | rfl <;>
      · unfold define_next_action
        rw [hs]
        rfl
  · intro hall
    have h1 := hall "generate_code" (by simp [routerTaskNames])
    have h2 := hall "ask_clarifications" (by simp [routerTaskNames])
    have h3 := hall "identify_dataform_files" (by simp [routerTaskNames])
    have h4 := hall "upload_files" (by simp [routerTaskNames])
    have h5 := hall "fix_errors" (by simp [routerTaskNames])
    have h6 := hall "handle_errors" (by simp [routerTaskNames])
    have h7 := hall "validate_data" (by simp [routerTaskNames])
    have h8 := hall "elicit_schema" (by simp [routerTaskNames])
    simp [define_next_action, h1, h2, h3, h4, h5, h6, h7, h8]

/-- Witness for C2: a state with `next = "generate_code"` routes to
`generate_code`, and a fresh state (unset `next`) routes to `END`. -/
theorem router_fixed_dispatch_table_witness :
    define_next_action { freshAgentState with next := some "generate_code" } =
      "generate_code" ∧
    define_next_action freshAgentState = END_SENTINEL :=
  ⟨(router_fixed_dispatch_table _).1 "generate_code" (by simp [routerTaskNames]) rfl,
   (router_fixed_dispatch_table _).2 (fun n _ => by simp [freshAgentState])⟩

/-- C3: starting from a state whose message contents are pairwise
distinct, the merged state's message contents are pairwise distinct for
every update (even one whose own message list repeats a content); the
existing messages stay as a prefix, the appended suffix preserves the
update's arrival order (it is a sublist of it), every update message's
content occurs in the result — so a message whose content does not
already match an existing one IS appended — and no message whose content
equals an existing message's content is appended. -/
theorem merger_messages_dedup (s : AgentState) (u : StateUpdate)
    (hnd : (s.messages.map Message.content).Nodup) :
    (update_agent_state s u).messages =
      s.messages ++ (update_agent_state s u).messages.drop s.messages.length ∧
    ((update_agent_state s u).messages.map Message.content).Nodup ∧
    (∀ ms, u.messages = some ms →
      ((update_agent_state s u).messages.drop s.messages.length).Sublist ms) ∧
    (∀ ms, u.messages = some ms → ∀ m ∈ ms,
      m.content ∈ (update_agent_state s u).messages.map Message.content) ∧
    (u.messages = none → (update_agent_state s u).messages = s.messages) ∧
    (∀ m ∈ (update_agent_state s u).messages.drop s.messages.length,
      m.content ∉ s.messages.map Message.content) := by
  rw [update_agent_state_messages]
  cases hm : u.messages with
  | none =>
    simp [List.drop_length, hnd]
  | some ms =>
    dsimp only
    obtain ⟨kept, h1, h2, h3, h4, h5⟩ := appendNoDup_characterization ms s.messages
    rw [h1]
    have hdrop : (s.messages ++ kept).drop s.messages.length = kept :=
      List.drop_left _ _
    rw [hdrop]
    refine ⟨rfl, h4 hnd, ?_, ?_, by simp, ?_⟩
    · intro ms' heq
      cases heq
      exact h2
    · intro ms' heq
      cases heq
      exact h5
    · intro m hmk hmem
      obtain ⟨sm, hsm, heq⟩ := List.mem_map.mp hmem
      exact h3 m hmk sm hsm heq

/-- Concrete state for the C3 witness. -/
def c3State : AgentState :=
  { freshAgentState with messages := [{ role := Role.human, content := "hi" }] }

/-- Concrete update for the C3 witness: repeats the existing content
`"hi"` and contains the content `"welcome"` twice. -/
def c3Update : StateUpdate :=
  { emptyStateUpdate with
      messages := some
        [{ role := Role.ai, content := "hi" },
         { role := Role.ai, content := "welcome" },
         { role := Role.ai, content := "welcome" }] }

/-- Witness for C3: the concrete duplicate-laden update keeps contents
pairwise distinct, and the genuinely new content `"welcome"` is
appended. -/
theorem merger_messages_dedup_witness :
    (c3State.messages.map Message.content).Nodup ∧
    ((update_agent_state c3State c3Update).messages.map Message.content).Nodup ∧
    "welcome" ∈ (update_agent_state c3State c3Update).messages.map Message.content :=
  ⟨by decide,
   (merger_messages_dedup c3State c3Update (by decide)).2.1,
   (merger_messages_dedup c3State c3Update (by decide)).2.2.2.1
     [{ role := Role.ai, content := "hi" },
      { role := Role.ai, content := "welcome" },
      { role := Role.ai, content := "welcome" }] rfl
     { role := Role.ai, content := "welcome" } (by decide)⟩

/-- Concrete state for the C4 counterexample: non-empty `source_tables`
and `intermediate_tables`. -/
def c4State : AgentState :=
  { freshAgentState with
      source_tables := some ["t1"]
      intermediate_tables := some ["i1"] }

/-- Concrete update for the C4 counterexample: `source_tables` present
with an empty (but non-null) list, `intermediate_tables` present with a
null value. -/
def c4Update : StateUpdate :=
  { emptyStateUpdate with
      source_tables := some (some [])
      intermediate_tables := some none }

/-- Counterexample to C4 as stated: an update supplying an EMPTY but
non-null `source_tables` replaces the field (the source only checks
`is not None`, not non-emptiness), and an update supplying a null
`intermediate_tables` overwrites the field with null (that key goes
through the generic `setattr` branch, which ignores the value
entirely).  Both contradict "replaced exactly when the update supplies a
non-empty value, left untouched on empty or null". -/
theorem tables_update_claim_cex :
    c4Update.source_tables = some (some []) ∧
    (update_agent_state c4State c4Update).source_tables = some [] ∧
    c4State.source_tables = some ["t1"] ∧
    c4Update.intermediate_tables = some none ∧
    (update_agent_state c4State c4Update).intermediate_tables = none ∧
    c4State.intermediate_tables = some ["i1"] := by
  decide

/-- C4 amended: `source_tables` and `target_tables` are replaced
wholesale exactly when the update supplies a non-null value — empty
lists included — and left unchanged when the key is absent or its value
is null; `intermediate_tables` is overwritten with whatever value the
update supplies (null and empty included) whenever the key is present,
and left unchanged only when the key is absent. -/
theorem tables_update_rule (s : AgentState) (u : StateUpdate) :
    ((update_agent_state s u).source_tables =
      match u.source_tables with
      | some (some v) => some v
      | _ => s.source_tables) ∧
    ((update_agent_state s u).target_tables =
      match u.target_tables with
      | some (some v) => some v
      | _ => s.target_tables) ∧
    ((update_agent_state s u).intermediate_tables =
      match u.intermediate_tables with
      | none => s.intermediate_tables
      | some v => v) :=
  ⟨update_agent_state_source_tables s u, update_agent_state_target_tables s u,
   update_agent_state_intermediate_tables s u⟩

/-- One compile-loop step when the current attempt reports no errors:
the normalized summary is returned at once. -/
theorem compileLoop_success (c : Nat → CompilationResults)
    (f : Nat → Option (List FileEntry)) (fs : List FileEntry) (fuel k : Nat)
    (h : (c k).compilation_errors = []) :
    compileLoop c f fs (fuel + 1) k =
      { attempts := 1
        fixerCalls := []
        result := some
          { name := (c k).name
            workspace := (c k).workspace
            compilation_errors := [] } } := by
  simp [compileLoop, h]

/-- One compile-loop step when the attempt reports errors and the fixer
returns a falsy value: the loop breaks and the call returns null. -/
theorem compileLoop_break (c : Nat → CompilationResults)
    (f : Nat → Option (List FileEntry)) (fs : List FileEntry) (fuel k : Nat)
    (he : (c k).compilation_errors ≠ []) (hf : f k = some []) :
    compileLoop c f fs (fuel + 1) k =
      { attempts := 1, fixerCalls := [fs], result := none } := by
  obtain ⟨e, es, hcr⟩ := List.exists_cons_of_ne_nil he
  simp [compileLoop, hcr, hf]

/-- One compile-loop step when the attempt reports errors and the repair
continues (replacement files produced, or an exception caught). -/
theorem compileLoop_continue (c : Nat → CompilationResults)
    (f : Nat → Option (List FileEntry)) (fs : List FileEntry) (fuel k : Nat)
    (he : (c k).compilation_errors ≠ []) (hf : f k ≠ some []) :
    compileLoop c f fs (fuel + 1) k =
      { attempts := (compileLoop c f fs fuel (k + 1)).attempts + 1
        fixerCalls := fs :: (compileLoop c f fs fuel (k + 1)).fixerCalls
        result := (compileLoop c f fs fuel (k + 1)).result } := by
  obtain ⟨e, es, hcr⟩ := List.exists_cons_of_ne_nil he
  rcases hff : f k with _ | (_ | ⟨a, l⟩)
  · simp [compileLoop, hcr, hff]
  · exact absurd hff hf
  · simp [compileLoop, hcr, hff]

/-- The loop never issues more compile RPCs than it has range
iterations. -/
theorem compileLoop_attempts_le (c : Nat → CompilationResults)
    (f : Nat → Option (List FileEntry)) (fs : List FileEntry) :
    ∀ fuel k, (compileLoop c f fs fuel k).attempts ≤ fuel := by
  intro fuel
  induction fuel with
  | zero => intro k; simp [compileLoop]
  | succ n ih =>
    intro k
    by_cases he : (c k).compilation_errors = []
    · rw [compileLoop_success c f fs n k he]
      show 1 ≤ n + 1
      omega
    · by_cases hf : f k = some []
      · rw [compileLoop_break c f fs n k he hf]
        show 1 ≤ n + 1
        omega
      · rw [compileLoop_continue c f fs n k he hf]
        have := ih (k + 1)
        show (compileLoop c f fs n (k + 1)).attempts + 1 ≤ n + 1
        omega

/-- With at least one range iteration left, at least one compile RPC is
issued. -/
theorem compileLoop_attempts_pos (c : Nat → CompilationResults)
    (f : Nat → Option (List FileEntry)) (fs : List FileEntry) (fuel k : Nat)
    (h : 0 < fuel) : 1 ≤ (compileLoop c f fs fuel k).attempts := by
  obtain ⟨n, rfl⟩ : ∃ n, fuel = n + 1 := ⟨fuel - 1, by omega⟩
  by_cases he : (c k).compilation_errors = []
  · rw [compileLoop_success c f fs n k he]
  · by_cases hf : f k = some []
    · rw [compileLoop_break c f fs n k he hf]
    · rw [compileLoop_continue c f fs n k he hf]
      show 1 ≤ (compileLoop c f fs n (k + 1)).attempts + 1
      omega

/-- If the first `j` attempts report errors without hitting the falsy
break and attempt `j` reports none, the loop stops right there: `j + 1`
compile RPCs, summary with an empty error list. -/
theorem compileLoop_first_success (c : Nat → CompilationResults)
    (f : Nat → Option (List FileEntry)) (fs : List FileEntry) :
    ∀ j fuel k, j < fuel →
      (∀ i, i < j → (c (k + i)).compilation_errors ≠ [] ∧ f (k + i) ≠ some []) →
      (c (k + j)).compilation_errors = [] →
      (compileLoop c f fs fuel k).attempts = j + 1 ∧
      (compileLoop c f fs fuel k).result =
        some { name := (c (k + j)).name
               workspace := (c (k + j)).workspace
               compilation_errors := [] } := by
  intro j
  induction j with
  | zero =>
    intro fuel k hlt hpre hsucc
    obtain ⟨n, rfl⟩ : ∃ n, fuel = n + 1 := ⟨fuel - 1, by omega⟩
    rw [compileLoop_success c f fs n k (by simpa using hsucc)]
    simp
  | succ m ih =>
    intro fuel k hlt hpre hsucc
    obtain ⟨n, rfl⟩ : ∃ n, fuel = n + 1 := ⟨fuel - 1, by omega⟩
    have h0 := hpre 0 (by omega)
    rw [compileLoop_continue c f fs n k (by simpa using h0.1) (by simpa using h0.2)]
    have hkm : k + 1 + m = k + (m + 1) := by omega
    have hpre' : ∀ i, i < m →
        (c (k + 1 + i)).compilation_errors ≠ [] ∧ f (k + 1 + i) ≠ some [] := by
      intro i hi
      have hidx : k + 1 + i = k + (i + 1) := by omega
      rw [hidx]
      exact hpre (i + 1) (by omega)
    have hsucc' : (c (k + 1 + m)).compilation_errors = [] := by
      rw [hkm]; exact hsucc
    have hrec := ih n (k + 1) (by omega) hpre' hsucc'
    constructor
    · show (compileLoop c f fs n (k + 1)).attempts + 1 = m + 1 + 1
      rw [hrec.1]
    · show (compileLoop c f fs n (k + 1)).result = _
      rw [hrec.2, hkm]

/-- When every attempt reports errors and the fixer always produces
replacement files (never a falsy value), the loop spends every range
iteration and returns null. -/
theorem compileLoop_all_fail (c : Nat → CompilationResults)
    (f : Nat → Option (List FileEntry)) (fs : List FileEntry)
    (he : ∀ k, (c k).compilation_errors ≠ []) (hf : ∀ k, f k ≠ some []) :
    ∀ fuel k, (compileLoop c f fs fuel k).attempts = fuel ∧
      (compileLoop c f fs fuel k).result = none := by
  intro fuel
  induction fuel with
  | zero => intro k; exact ⟨rfl, rfl⟩
  | succ n ih =>
    intro k
    rw [compileLoop_continue c f fs n k (he k) (hf k)]
    constructor
    · show (compileLoop c f fs n (k + 1)).attempts + 1 = n + 1
      rw [(ih (k + 1)).1]
    · show (compileLoop c f fs n (k + 1)).result = none
      exact (ih (k + 1)).2

/-- Every argument ever passed to the generative-repair capability is
the original `files` list. -/
theorem compileLoop_fixerCalls (c : Nat → CompilationResults)
    (f : Nat → Option (List FileEntry)) (fs : List FileEntry) :
    ∀ fuel k, ∀ a ∈ (compileLoop c f fs fuel k).fixerCalls, a = fs := by
  intro fuel
  induction fuel with
  | zero =>
    intro k a ha
    simp [compileLoop] at ha
  | succ n ih =>
    intro k a ha
    by_cases he : (c k).compilation_errors = []
    · rw [compileLoop_success c f fs n k he] at ha
      simp at ha
    · by_cases hf : f k = some []
      · rw [compileLoop_break c f fs n k he hf] at ha
        simpa using ha
      · rw [compileLoop_continue c f fs n k he hf] at ha
        rcases List.mem_cons.mp ha with rfl | hmem
        · rfl
        · exact ih (k + 1) a hmem

/-- The upload phase attempts every file's write, in order, whatever the
individual outcomes are. -/
theorem uploadPhase_paths (write : String → String → Bool) :
    ∀ files, (uploadPhase write files).map Prod.fst = files.map FileEntry.path := by
  intro files
  induction files with
  | nil => rfl
  | cons f fs ih => simp [uploadPhase, ih]

/-- Each file of the batch gets its write attempted (and the attempt's
outcome recorded), independently of the other files' outcomes. -/
theorem uploadPhase_mem (write : String → String → Bool) :
    ∀ files, ∀ f ∈ files,
      (f.path, write f.path f.content) ∈ uploadPhase write files := by
  intro files
  induction files with
  | nil => intro f hf; simp at hf
  | cons g gs ih =>
    intro f hf
    rcases List.mem_cons.mp hf with rfl | hmem
    · simp [uploadPhase]
    · exact List.mem_cons.mpr (Or.inr (ih f hmem))

/-- C1: for every file list and workspace name (and whatever the write,
compile, and repair capabilities do), `upload_and_compile_files` issues
at most 3 compilation attempts; if the first `k` attempts (`k < 3`)
report errors without the repair returning a falsy value and attempt `k`
reports zero errors, the call returns the success summary right after
attempt `k + 1` — its error list empty — without spending the remaining
attempts; and when every attempt reports errors while repairs keep
producing replacement files, the call performs exactly 3 attempts — not
fewer — and returns null. -/
theorem upload_and_compile_attempt_policy (write : String → String → Bool)
    (compile : Nat → CompilationResults) (fixer : Nat → Option (List FileEntry))
    (files : List FileEntry) (ws : String) :
    ((upload_and_compile_files write compile fixer files ws).2.attempts ≤ 3) ∧
    (∀ k, k < 3 →
      (∀ i, i < k → (compile i).compilation_errors ≠ [] ∧ fixer i ≠ some []) →
      (compile k).compilation_errors = [] →
      (upload_and_compile_files write compile fixer files ws).2.attempts = k + 1 ∧
      (upload_and_compile_files write compile fixer files ws).2.result =
        some { name := (compile k).name
               workspace := (compile k).workspace
               compilation_errors := [] }) ∧
    ((∀ k, (compile k).compilation_errors ≠ []) → (∀ k, fixer k ≠ some []) →
      (upload_and_compile_files write compile fixer files ws).2.attempts = 3 ∧
      (upload_and_compile_files write compile fixer files ws).2.result = none) := by
  refine ⟨compileLoop_attempts_le compile fixer files 3 0, ?_, ?_⟩
  · intro k hk hpre hsucc
    have := compileLoop_first_success compile fixer files k 3 0 hk
      (by intro i hi; simpa using hpre i hi) (by simpa using hsucc)
    simpa using this
  · intro he hf
    exact compileLoop_all_fail compile fixer files he hf 3 0

/-- A compile stub that always reports one structural error. -/
def alwaysErrCompile : Nat → CompilationResults :=
  fun _ =>
    { name := "projects/p/compilationResults/r"
      workspace := "projects/p/workspaces/w"
      compilation_errors := [{ message := "m", path := "p", stack := "s" }] }

/-- A repair stub that always produces one replacement file. -/
def alwaysFixFixer : Nat → Option (List FileEntry) :=
  fun _ => some [{ path := "definitions/tbl.sqlx", content := "fixed" }]

/-- The file batch used by the concrete witnesses. -/
def demoFiles : List FileEntry :=
  [{ path := "definitions/tbl.sqlx", content := "select 1" }]

/-- Witness for C1: with the always-erroring compile stub and a repair
that keeps producing files, failure lands exactly on the 3rd attempt and
the call returns null. -/
theorem upload_and_compile_attempt_policy_witness :
    (upload_and_compile_files (fun _ _ => true) alwaysErrCompile alwaysFixFixer
        demoFiles "ws").2.attempts = 3 ∧
    (upload_and_compile_files (fun _ _ => true) alwaysErrCompile alwaysFixFixer
        demoFiles "ws").2.result = none :=
  (upload_and_compile_attempt_policy (fun _ _ => true) alwaysErrCompile alwaysFixFixer
      demoFiles "ws").2.2
    (fun _ => by simp [alwaysErrCompile])
    (fun _ => by simp [alwaysFixFixer])

/-- C7: file writes are best-effort per file: whatever the write
capability does on each file — failures included, since each write sits
in its own try/except — every file of the batch has its write attempted,
in order, and the compilation phase is still entered (at least one
compile attempt is issued). -/
theorem upload_best_effort (write : String → String → Bool)
    (compile : Nat → CompilationResults) (fixer : Nat → Option (List FileEntry))
    (files : List FileEntry) (ws : String) :
    ((upload_and_compile_files write compile fixer files ws).1.map Prod.fst =
      files.map FileEntry.path) ∧
    (∀ f ∈ files,
      (f.path, write f.path f.content) ∈
        (upload_and_compile_files write compile fixer files ws).1) ∧
    1 ≤ (upload_and_compile_files write compile fixer files ws).2.attempts :=
  ⟨uploadPhase_paths write files, uploadPhase_mem write files,
   compileLoop_attempts_pos compile fixer files 3 0 (by omega)⟩

/-- Witness for C7: a write capability that fails on the batch's file
still records the attempted write and compilation is still entered. -/
theorem upload_best_effort_witness :
    ("definitions/tbl.sqlx", false) ∈
      (upload_and_compile_files (fun _ _ => false) alwaysErrCompile alwaysFixFixer
        demoFiles "ws").1 ∧
    1 ≤ (upload_and_compile_files (fun _ _ => false) alwaysErrCompile alwaysFixFixer
        demoFiles "ws").2.attempts :=
  ⟨(upload_best_effort (fun _ _ => false) alwaysErrCompile alwaysFixFixer
      demoFiles "ws").2.1 { path := "definitions/tbl.sqlx", content := "select 1" }
      (by simp [demoFiles]),
   (upload_best_effort (fun _ _ => false) alwaysErrCompile alwaysFixFixer
      demoFiles "ws").2.2⟩

/-- C9: within one call of `upload_and_compile_files`, every invocation
of the generative-repair capability receives the original `files`
argument the call started with — the source never folds the replacement
files back into the local `files` variable, so later repair requests are
built from the original contents. -/
theorem fixer_receives_original_files (write : String → String → Bool)
    (compile : Nat → CompilationResults) (fixer : Nat → Option (List FileEntry))
    (files : List FileEntry) (ws : String) :
    ∀ args ∈ (upload_and_compile_files write compile fixer files ws).2.fixerCalls,
      args = files :=
  compileLoop_fixerCalls compile fixer files 3 0

/-- Witness for C9: in the 3-repair run of the concrete stubs, the first
repair request carries the original batch, not the previously fixed
files. -/
theorem fixer_receives_original_files_witness :
    ((upload_and_compile_files (fun _ _ => true) alwaysErrCompile alwaysFixFixer
        demoFiles "ws").2.fixerCalls.getD 0 []) = demoFiles :=
  fixer_receives_original_files (fun _ _ => true) alwaysErrCompile alwaysFixFixer
    demoFiles "ws"
    ((upload_and_compile_files (fun _ _ => true) alwaysErrCompile alwaysFixFixer
        demoFiles "ws").2.fixerCalls.getD 0 [])
    (by decide)

/-- If no model response ever parses, the repair loop is still running
after any number of iterations: no fuel bound suffices. -/
theorem fixLoop_never_parse (g : Nat → String) (p : String → Option FixedJson)
    (h : ∀ k, p (stripFence (g k)) = none) :
    ∀ fuel k, fixLoop g p fuel k = none := by
  intro fuel
  induction fuel with
  | zero => intro k; rfl
  | succ n ih =>
    intro k
    show fixLoop g p (n + 1) k = none
    simp only [fixLoop, h k]
    exact ih (k + 1)

/-- Failed parses are skipped one model call at a time. -/
theorem fixLoop_skip (g : Nat → String) (p : String → Option FixedJson) :
    ∀ j k fuel, (∀ i, i < j → p (stripFence (g (k + i))) = none) →
      fixLoop g p (fuel + j) k = fixLoop g p fuel (k + j) := by
  intro j
  induction j with
  | zero => intro k fuel _; simp
  | succ m ih =>
    intro k fuel h
    have h0 : p (stripFence (g k)) = none := by simpa using h 0 (by omega)
    show fixLoop g p ((fuel + m) + 1) k = _
    simp only [fixLoop, h0]
    have hrec := ih (k + 1) fuel (fun i hi => by
      have hidx : k + 1 + i = k + (i + 1) := by omega
      rw [hidx]
      exact h (i + 1) (by omega))
    rw [hrec]
    congr 1
    omega

/-- The loop returns as soon as a response parses, reporting the parsed
`files` value and the number of model calls made so far. -/
theorem fixLoop_success_at (g : Nat → String) (p : String → Option FixedJson)
    (k : Nat) (fj : FixedJson) (h : p (stripFence (g k)) = some fj) (fuel : Nat) :
    fixLoop g p (fuel + 1) k = some (fj.files.getD [], k + 1) := by
  simp [fixLoop, h]

/-- C5: the response repair loop of `fix_compilation_errors` terminates
exactly when the parse succeeds.  Three parts: a never-parsing model
keeps the loop running past every bound (no attempt bound exists); the
invalid-invalid-valid stub makes exactly 3 model calls and returns the
third response's parsed `files` value; and the loop returns within some
bound precisely when some model call's response parses. -/
theorem response_repair_loop_behavior (g : Nat → String)
    (p : String → Option FixedJson) :
    ((∀ k, p (stripFence (g k)) = none) →
      ∀ fuel, fix_compilation_errors g p fuel = none) ∧
    (∀ fj, p (stripFence (g 0)) = none → p (stripFence (g 1)) = none →
      p (stripFence (g 2)) = some fj →
      ∀ fuel, 3 ≤ fuel →
        fix_compilation_errors g p fuel = some (fj.files.getD [], 3)) ∧
    ((∃ fuel r, fix_compilation_errors g p fuel = some r) ↔
      ∃ k, (p (stripFence (g k))).isSome = true) := by
  refine ⟨?_, ?_, ?_⟩
  · intro h fuel
    exact fixLoop_never_parse g p h fuel 0
  · intro fj h0 h1 h2 fuel hfuel
    obtain ⟨m, rfl⟩ : ∃ m, fuel = m + 3 := ⟨fuel - 3, by omega⟩
    show fixLoop g p (m + 3) 0 = _
    have e1 : fixLoop g p ((m + 2) + 1) 0 = fixLoop g p (m + 2) 1 := by
      simp only [fixLoop, h0]
    have e2 : fixLoop g p ((m + 1) + 1) 1 = fixLoop g p (m + 1) 2 := by
      simp only [fixLoop, h1]
    rw [show m + 3 = (m + 2) + 1 from rfl, e1, e2]
    exact fixLoop_success_at g p 2 fj h2 m
  · constructor
    · rintro ⟨fuel, r, hr⟩
      by_contra hno
      push_neg at hno
      have hnone : ∀ k, p (stripFence (g k)) = none := by
        intro k
        have hk := hno k
        cases hpk : p (stripFence (g k)) with
        | none => rfl
        | some fj => rw [hpk] at hk; simp at hk
      rw [show fix_compilation_errors g p fuel = fixLoop g p fuel 0 from rfl,
        fixLoop_never_parse g p hnone fuel 0] at hr
      cases hr
    · rintro ⟨k, hk⟩
      have hex : ∃ k, (p (stripFence (g k))).isSome = true := ⟨k, hk⟩
      have hP : (p (stripFence (g (Nat.find hex)))).isSome = true := Nat.find_spec hex
      have hmin : ∀ i, i < Nat.find hex → p (stripFence (g i)) = none := by
        intro i hi
        have hni := Nat.find_min hex hi
        cases hpi : p (stripFence (g i)) with
        | none => rfl
        | some fj => rw [hpi] at hni; simp at hni
      obtain ⟨fj, hfj⟩ := Option.isSome_iff_exists.mp hP
      refine ⟨1 + Nat.find hex, (fj.files.getD [], Nat.find hex + 1), ?_⟩
      show fixLoop g p (1 + Nat.find hex) 0 = _
      rw [fixLoop_skip g p (Nat.find hex) 0 1
        (fun i hi => by simpa using hmin i hi)]
      rw [show (0 : Nat) + Nat.find hex = Nat.find hex by omega]
      exact fixLoop_success_at g p (Nat.find hex) fj hfj 0

/-- A model stub whose responses are invalid on the first two calls and
valid on the third. -/
def demoResponses : Nat → String :=
  fun n => if n < 2 then "not a json object" else "files ok"

/-- A parse stub accepting exactly the third stub response. -/
def demoParse : String → Option FixedJson :=
  fun s =>
    if s = "files ok" then
      some { files := some [{ path := "definitions/tbl.sqlx", content := "fixed" }] }
    else none

/-- Witness for C5: the invalid-invalid-valid stub returns the third
response's parsed value after exactly 3 model calls. -/
theorem response_repair_loop_behavior_witness :
    fix_compilation_errors demoResponses demoParse 3 =
      some ([{ path := "definitions/tbl.sqlx", content := "fixed" }], 3) :=
  (response_repair_loop_behavior demoResponses demoParse).2.1
    { files := some [{ path := "definitions/tbl.sqlx", content := "fixed" }] }
    (by decide) (by decide) (by decide) 3 (by omega)

/-- Outcome of guarding one streamed turn with the driver's
`except KeyError` clause. -/
inductive GuardedOutcome where
  | completed (t : TurnStart)
  | restartedFresh (fresh : AgentState)
  | raised (f : Fault)
deriving DecidableEq, Repr

/-- The driver's guard around one streamed turn
(`agent_executor.py:170-230`): a normally finished turn passes through;
a fault goes to the `except KeyError` clause, which restarts with a
fresh state on the known edge text and re-raises otherwise; non-KeyError
faults have no matching clause and propagate. -/
def runTurnGuarded : Except Fault TurnStart → GuardedOutcome
  | Except.ok t => GuardedOutcome.completed t
  | Except.error f =>
    match handleTurnFault f with
    | DriverReaction.restartTurn s => GuardedOutcome.restartedFresh s
    | DriverReaction.propagate f2 => GuardedOutcome.raised f2

/-- C8: the driver restarts the turn with fresh state exactly for a
`KeyError` whose text contains the internal edge name
`branch:upload_files:wrapper:end`; every other fault of a turn —
non-matching `KeyError`s and all non-`KeyError` faults — propagates out
unchanged, and a turn without fault is never restarted. -/
theorem driver_catches_known_edge_fault_only (r : Except Fault TurnStart) :
    ((runTurnGuarded r = GuardedOutcome.restartedFresh freshAgentState) ↔
      ∃ t, r = Except.error (Fault.keyError t) ∧
        strContainsSub t KNOWN_EDGE_FAULT = true) ∧
    (∀ f, r = Except.error f →
      (∀ t, f = Fault.keyError t → strContainsSub t KNOWN_EDGE_FAULT = false) →
      runTurnGuarded r = GuardedOutcome.raised f) ∧
    (∀ t, r = Except.ok t → runTurnGuarded r = GuardedOutcome.completed t) := by
  refine ⟨?_, ?_, ?_⟩
  · cases r with
    | ok t => simp [runTurnGuarded]
    | error f =>
      cases f with
      | keyError t =>
        by_cases hc : strContainsSub t KNOWN_EDGE_FAULT = true
        · simp [runTurnGuarded, handleTurnFault, hc]
        · simp [runTurnGuarded, handleTurnFault, hc]
      | otherFault t => simp [runTurnGuarded, handleTurnFault]
  · rintro f rfl hall
    cases f with
    | keyError t =>
      have hct := hall t rfl
      simp [runTurnGuarded, handleTurnFault, hct]
    | otherFault t => simp [runTurnGuarded, handleTurnFault]
  · rintro t rfl
    simp [runTurnGuarded]

/-- Witness for C8: the matching `KeyError` text (as `str(e)` renders
it) restarts with fresh state; an unrelated fault carrying the same text
still propagates, because it is not a `KeyError`. -/
theorem driver_catches_known_edge_fault_only_witness :
    runTurnGuarded
        (Except.error (Fault.keyError "'branch:upload_files:wrapper:end'")) =
      GuardedOutcome.restartedFresh freshAgentState ∧
    runTurnGuarded
        (Except.error (Fault.otherFault "'branch:upload_files:wrapper:end'")) =
      GuardedOutcome.raised
        (Fault.otherFault "'branch:upload_files:wrapper:end'") :=
  ⟨(driver_catches_known_edge_fault_only _).1.mpr
      ⟨"'branch:upload_files:wrapper:end'", rfl, by decide⟩,
   (driver_catches_known_edge_fault_only _).2.1
      (Fault.otherFault "'branch:upload_files:wrapper:end'") rfl
      (fun t h => Fault.noConfusion h)⟩

/-- The streamed turn never reads the `Continue? (yes/no)` input: its
run is the same as with any fixed input source. -/
theorem streamGo_ignores_contIn (chunks : List StreamChunk) :
    ∀ ins state i printed,
      streamGo ins state chunks i printed =
        streamGo (fun _ => "") state chunks i printed := by
  induction chunks with
  | nil => intro ins state i printed; rfl
  | cons c cs ih =>
    intro ins state i printed
    simp only [streamGo]
    split_ifs <;> first | rfl | exact ih ins _ _ _

/-- C10: the value entered at the `Continue? (yes/no)` prompt is
discarded without inspection — two runs of one turn that differ only in
those entries produce identical printed output and identical final
state. -/
theorem continue_prompt_input_discarded (state : AgentState) (userRequest : String)
    (chunks : List StreamChunk) (ins1 ins2 : Nat → String) :
    interactiveTurn state userRequest chunks ins1 =
      interactiveTurn state userRequest chunks ins2 := by
  unfold interactiveTurn
  simp only [streamGo_ignores_contIn chunks ins1, streamGo_ignores_contIn chunks ins2]

/-- Setting the freshly appended last cell leaves the others in place. -/
theorem set_append_length (h : List AgentState) (s v : AgentState) :
    (h ++ [s]).set h.length v = h ++ [v] := by
  induction h with
  | nil => rfl
  | cons a t ih => simp [List.set, ih]

/-- C6: the state merger never mutates its input: the call deep-copies
the state into a fresh independent cell and mutates only that cell, so
after the call the input reference still holds exactly its pre-call
value, and the result lives at a distinct reference whose later
mutation cannot alter the input. -/
theorem merger_never_mutates_input (h : Heap) (r : Nat) (u : StateUpdate)
    (s : AgentState) (hs : readRef h r = some s) :
    update_agent_state_heap h r u =
      some (h ++ [update_agent_state s u], h.length) ∧
    h.length ≠ r ∧
    readRef (h ++ [update_agent_state s u]) r = some s ∧
    readRef (h ++ [update_agent_state s u]) h.length =
      some (update_agent_state s u) := by
  have hr : r < h.length := by
    by_contra hge
    rw [readRef, List.getElem?_eq_none (by omega)] at hs
    cases hs
  refine ⟨?_, by omega, ?_, ?_⟩
  · show (match readRef h r with
      | none => none
      | some s =>
        let alloc := allocRef h s
        some (writeRef alloc.1 alloc.2 (update_agent_state s u), alloc.2)) = _
    rw [hs]
    show some (writeRef (h ++ [s]) h.length (update_agent_state s u), h.length) = _
    rw [writeRef, set_append_length]
  · show (h ++ [update_agent_state s u])[r]? = some s
    rw [List.getElem?_append_left hr]
    exact hs
  · show (h ++ [update_agent_state s u])[h.length]? = some (update_agent_state s u)
    exact List.getElem?_concat_length _ _

/-- Witness for C6: merging a duplicate-laden update into a one-cell
heap leaves the input cell holding its pre-call value. -/
theorem merger_never_mutates_input_witness :
    update_agent_state_heap [c3State] 0 c3Update =
      some ([c3State, update_agent_state c3State c3Update], 1) ∧
    readRef [c3State, update_agent_state c3State c3Update] 0 = some c3State :=
  ⟨(merger_never_mutates_input [c3State] 0 c3Update c3State rfl).1,
   (merger_never_mutates_input [c3State] 0 c3Update c3State rfl).2.2.1⟩

end DataAgent
